import Mathlib

/-!
Verification development for the rchess chess engine.

The definitions below are a shallow embedding of the Rust sources:
machine integers (i32, i8, i16) are modelled as Int (all arithmetic in the
translated code stays far from the overflow boundaries), Rust truncating
division and remainder are Int.tdiv and Int.tmod, a Vec index panic is
modelled as the value none of an Option, and Result is modelled as Except.
-/

namespace RChess

/-- Color of a piece, from pieces/mod.rs. -/
inductive Color
  | White
  | Black
deriving DecidableEq

/-- Error taxonomy of the engine.  The closed set of variants is the one the
piece modules use (pieces/king.rs, rook.rs, bishop.rs, knight.rs, queen.rs,
pawn.rs and the spec section 7). -/
inductive ChessError
  | InvalidMove
  | InvalidPiece
  | BlockedMove
  | InvalidCapture
  | UnSafeKing
  | NoPiece
deriving DecidableEq

/-- Position from lib.rs: a file character (stored as its character code,
97 = file a .. 104 = file h) and a rank (i8). -/
structure Position where
  x : Int
  y : Int
deriving DecidableEq

/-- Position::to_index from lib.rs lines 381-385. -/
def Position.toIndex (p : Position) : Int :=
  (p.x - 97) + (p.y - 1) * 8

/-- Position::from_index from lib.rs lines 387-394; Rust % and / on i32
truncate toward zero, hence tmod and tdiv. -/
def Position.fromIndex (index : Int) : Position :=
  { x := Int.tmod index 8 + 97, y := Int.tdiv index 8 + 1 }

/-- PieceType. Modelled from the spec: the tagged union over the six piece
kinds, each variant carrying its Color and current Position, the Pawn
additionally a first-move flag (spec section 3).  The enum declaration
itself is not part of the snapshot under src/ (pieces/mod.rs there is an
older revision); every use site in src/ (board.rs, ai.rs, the piece
modules and their tests) fixes this shape. -/
inductive PieceType
  | Pawn (color : Color) (position : Position) (isFirstMove : Bool)
  | Rook (color : Color) (position : Position)
  | Bishop (color : Color) (position : Position)
  | Knight (color : Color) (position : Position)
  | Queen (color : Color) (position : Position)
  | King (color : Color) (position : Position)
deriving DecidableEq

/-- PieceType::color. Modelled from the spec: the color tag carried by each
variant (used throughout src/). -/
def PieceType.color : PieceType → Color
  | .Pawn c _ _ => c
  | .Rook c _ => c
  | .Bishop c _ => c
  | .Knight c _ => c
  | .Queen c _ => c
  | .King c _ => c

/-- PieceType::value. Modelled from the spec: material value is a pure
function of the kind, Pawn 1, Knight and Bishop 3, Rook 5, Queen 9, King a
sentinel value (spec section 3); the concrete sentinel 127 is irrelevant to
every theorem below because both kings stay on the board and cancel. -/
def PieceType.value : PieceType → Int
  | .Pawn _ _ _ => 1
  | .Rook _ _ => 5
  | .Bishop _ _ => 3
  | .Knight _ _ => 3
  | .Queen _ _ => 9
  | .King _ _ => 127

/-- Square from lib.rs lines 348-353: an optional piece plus the cell's own
fixed coordinates. -/
structure Square where
  piece : Option PieceType
  x : Int
  y : Int
deriving DecidableEq

/-- Board from board.rs: the ordered collection of 64 squares. -/
structure Board where
  squares : List Square
deriving DecidableEq

/-- List lookup by position, mirroring Vec indexing; none is the panic of an
out-of-range index. -/
def squareList : List Square → Nat → Option Square
  | [], _ => none
  | s :: _, 0 => some s
  | _ :: r, n + 1 => squareList r n

/-- List update of the piece field at an index; updating past the end is
unreachable in the places this is used (a successful lookup precedes it). -/
def setPieceList : List Square → Nat → Option PieceType → List Square
  | [], _, _ => []
  | s :: r, 0, p => { s with piece := p } :: r
  | s :: r, n + 1, p => s :: setPieceList r n p

/-- Indexing squares by a flat i32 index: Rust casts the i32 to usize, so a
negative index panics just like one past the end. -/
def Board.getSquare (b : Board) (i : Int) : Option Square :=
  if i < 0 then none else squareList b.squares i.toNat

/-- BoardTrait::square from board.rs lines 254-257. -/
def Board.square (b : Board) (p : Position) : Option Square :=
  b.getSquare p.toIndex

/-- Writing a piece through square_mut: panics (none) exactly when the index
is out of range, otherwise returns the updated board. -/
def Board.setPieceO (b : Board) (i : Int) (p : Option PieceType) : Option Board :=
  match b.getSquare i with
  | none => none
  | some _ => some ⟨setPieceList b.squares i.toNat p⟩

/-- Board::get_all_white_pieces from board.rs lines 179-190: all White
pieces in cell-index order. -/
def Board.getAllWhitePieces (b : Board) : List PieceType :=
  (b.squares.filterMap Square.piece).filter fun p => p.color == Color.White

/-- Board::get_all_black_pieces from board.rs lines 192-203. -/
def Board.getAllBlackPieces (b : Board) : List PieceType :=
  (b.squares.filterMap Square.piece).filter fun p => p.color == Color.Black

/-- BoardTrait::evaluate from board.rs lines 233-247: own material minus
opposing material, summed over the squares. -/
def Board.evaluate (b : Board) (color : Color) : Int :=
  b.squares.foldl
    (fun score sq =>
      match sq.piece with
      | some piece => if piece.color = color then score + piece.value else score - piece.value
      | none => score)
    0

/-- Board::get_squares from board.rs lines 142-156: 8 ranks of 8 files,
rank-major, all empty, each square remembering its own coordinates. -/
def getSquares : List Square :=
  (List.range 8).flatMap fun yi =>
    (List.range 8).map fun xi => { piece := none, x := 97 + (xi : Int), y := 1 + (yi : Int) }

/-- Board::fill_white from board.rs lines 40-82. -/
def fillWhite (squares : List Square) : List Square :=
  let s := setPieceList squares 0 (some (.Rook .White ⟨97, 1⟩))
  let s := setPieceList s 1 (some (.Knight .White ⟨98, 1⟩))
  let s := setPieceList s 2 (some (.Bishop .White ⟨99, 1⟩))
  let s := setPieceList s 3 (some (.Queen .White ⟨100, 1⟩))
  let s := setPieceList s 4 (some (.King .White ⟨101, 1⟩))
  let s := setPieceList s 5 (some (.Bishop .White ⟨102, 1⟩))
  let s := setPieceList s 6 (some (.Knight .White ⟨103, 1⟩))
  let s := setPieceList s 7 (some (.Rook .White ⟨104, 1⟩))
  (List.range 8).foldl
    (fun acc i => setPieceList acc (8 + i) (some (.Pawn .White ⟨97 + (i : Int), 2⟩ true))) s

/-- Board::fill_black from board.rs lines 84-126. -/
def fillBlack (squares : List Square) : List Square :=
  let s := setPieceList squares 56 (some (.Rook .Black ⟨97, 8⟩))
  let s := setPieceList s 57 (some (.Knight .Black ⟨98, 8⟩))
  let s := setPieceList s 58 (some (.Bishop .Black ⟨99, 8⟩))
  let s := setPieceList s 59 (some (.Queen .Black ⟨100, 8⟩))
  let s := setPieceList s 60 (some (.King .Black ⟨101, 8⟩))
  let s := setPieceList s 61 (some (.Bishop .Black ⟨102, 8⟩))
  let s := setPieceList s 62 (some (.Knight .Black ⟨103, 8⟩))
  let s := setPieceList s 63 (some (.Rook .Black ⟨104, 8⟩))
  (List.range 8).foldl
    (fun acc i => setPieceList acc (48 + i) (some (.Pawn .Black ⟨97 + (i : Int), 7⟩ true))) s

/-- Board::new_inner from board.rs lines 128-134: the standard opening
board. -/
def newBoard : Board :=
  ⟨fillBlack (fillWhite getSquares)⟩

/-- Board::empty_inner from board.rs lines 136-140. -/
def emptyBoard : Board :=
  ⟨getSquares⟩

/-- Claim C8: for every integer i in the range 0 ≤ i < 64,
Position::from_index(i).to_index() equals i, and for every position whose
file lies in a..h (codes 97..104) and whose rank lies in 1..8,
Position::from_index(p.to_index()) equals p. -/
theorem position_index_roundtrip :
    (∀ i : Int, 0 ≤ i → i < 64 → (Position.fromIndex i).toIndex = i) ∧
    (∀ p : Position, 97 ≤ p.x → p.x ≤ 104 → 1 ≤ p.y → p.y ≤ 8 →
      Position.fromIndex p.toIndex = p) := by
  constructor
  · intro i h0 _
    simp only [Position.fromIndex, Position.toIndex]
    have h8 : (0 : Int) ≤ 8 := by norm_num
    rw [Int.tmod_eq_emod h0 h8, Int.tdiv_eq_ediv h0 h8]
    omega
  · intro p hx1 hx2 hy1 hy2
    obtain ⟨x, y⟩ := p
    simp only [Position.toIndex, Position.fromIndex] at *
    have h0 : (0 : Int) ≤ (x - 97) + (y - 1) * 8 := by nlinarith
    rw [Int.tmod_eq_emod h0 (by norm_num), Int.tdiv_eq_ediv h0 (by norm_num)]
    simp only [Position.mk.injEq]
    omega

/-- Witness for C8: the round trip evaluated at index 27 (square d4) and at
the position c3. -/
theorem position_index_roundtrip_witness :
    (Position.fromIndex 27).toIndex = 27 ∧
    Position.fromIndex (Position.mk 99 3).toIndex = Position.mk 99 3 :=
  ⟨position_index_roundtrip.1 27 (by norm_num) (by norm_num),
   position_index_roundtrip.2 ⟨99, 3⟩ (by norm_num) (by norm_num) (by norm_num) (by norm_num)⟩

/-- Claim C9: evaluate(White) is 0 on the standard opening board, -6 after
removing both White knights (cells 1 and 6), and -39 after reducing White
to only its king (clearing cells 0..15 except cell 4), exactly as the tests
in board.rs construct those boards. -/
theorem evaluate_opening_values :
    newBoard.evaluate .White = 0 ∧
    (Board.mk (setPieceList (setPieceList newBoard.squares 1 none) 6 none)).evaluate .White = -6 ∧
    (Board.mk ((List.range 16).foldl
        (fun s i => if i = 4 then s else setPieceList s i none) newBoard.squares)).evaluate
      .White = -39 := by
  decide

/-- Result type of the legality predicates: none models a Rust panic
(out-of-range Vec index), some (Except.error e) a Result::Err, and
some (Except.ok a) a Result::Ok. -/
abbrev MRes (α : Type) := Option (Except ChessError α)

deriving instance DecidableEq for Except

/-- Ok value of MRes. -/
def mret {α : Type} (a : α) : MRes α := some (.ok a)

/-- Err value of MRes. -/
def mthrow {α : Type} (e : ChessError) : MRes α := some (.error e)

/-- Path walk shared by rook_move and bishop_move (rook.rs lines 60-110,
bishop.rs lines 58-109): starting one step from the origin, repeatedly stop
when the target index is reached, otherwise fail with BlockedMove if the
visited square is occupied and advance by the step.  The useAbs flag marks
the two descending branches of bishop_move, which read the square at
from_index(index.abs()).  The fuel only bounds the recursion; every call
below uses fuel 100, which the loop can never exhaust because an index
outside 0..63 already stops it with a panic (none). -/
def walkPath (b : Board) (stp : Int) (useAbs : Bool) : Nat → Int → Int → MRes Unit
  | 0, _, _ => none
  | fuel + 1, index, target =>
    if index = target then mret ()
    else
      match b.square (Position.fromIndex (if useAbs then |index| else index)) with
      | none => none
      | some sq =>
        if sq.piece.isSome then mthrow .BlockedMove
        else walkPath b stp useAbs fuel (index + stp) target

/-- Function rook_move from rook.rs lines 60-110. -/
def rookMove (b : Board) (oldIndex newIndex jump : Int) : MRes Unit :=
  if Int.tmod jump 8 = 0 then
    if newIndex > oldIndex then walkPath b 8 false 100 (oldIndex + 8) newIndex
    else walkPath b (-8) false 100 (oldIndex - 8) newIndex
  else
    if newIndex > oldIndex then walkPath b 1 false 100 (oldIndex + 1) newIndex
    else walkPath b (-1) false 100 (oldIndex - 1) newIndex

/-- Function rook::can_move_to from rook.rs lines 29-58. -/
def rookCanMoveTo (currentPosition : Position) (color : Color) (position : Position)
    (b : Board) : MRes Unit :=
  let newIndex := position.toIndex
  let oldIndex := currentPosition.toIndex
  let jump := newIndex - oldIndex
  if |jump| < 8 ∧ position.y ≠ currentPosition.y then mthrow .InvalidMove
  else if Int.tmod jump 8 ≠ 0 ∧ Int.tdiv jump 8 ≠ 0 then mthrow .InvalidMove
  else
    match rookMove b oldIndex newIndex jump with
    | none => none
    | some (.error e) => some (.error e)
    | some (.ok _) =>
      match b.square position with
      | none => none
      | some sq =>
        match sq.piece with
        | some p => if p.color = color then mthrow .InvalidCapture else mret ()
        | none => mret ()

/-- Function bishop_move from bishop.rs lines 58-109. -/
def bishopMove (b : Board) (oldIndex newIndex jump : Int) : MRes Unit :=
  if Int.tmod jump 7 = 0 then
    if newIndex > oldIndex then walkPath b 7 false 100 (oldIndex + 7) newIndex
    else walkPath b (-7) true 100 (oldIndex - 7) newIndex
  else
    if newIndex > oldIndex then walkPath b 9 false 100 (oldIndex + 9) newIndex
    else walkPath b (-9) true 100 (oldIndex - 9) newIndex

/-- Function bishop::can_move_to from bishop.rs lines 32-56. -/
def bishopCanMoveTo (currentPosition : Position) (color : Color) (position : Position)
    (b : Board) : MRes Unit :=
  let newIndex := position.toIndex
  let oldIndex := currentPosition.toIndex
  let jump := newIndex - oldIndex
  if Int.tmod jump 7 ≠ 0 ∧ Int.tmod jump 9 ≠ 0 then mthrow .InvalidMove
  else
    match bishopMove b oldIndex newIndex jump with
    | none => none
    | some (.error e) => some (.error e)
    | some (.ok _) =>
      match b.square position with
      | none => none
      | some sq =>
        match sq.piece with
        | some p => if p.color = color then mthrow .InvalidCapture else mret ()
        | none => mret ()

/-- Function knight::can_move_to from knight.rs lines 31-57. -/
def knightCanMoveTo (currentPosition : Position) (color : Color) (position : Position)
    (b : Board) : MRes Unit :=
  let newIndex := position.toIndex
  if newIndex < 0 ∨ 64 ≤ newIndex then mthrow .InvalidMove
  else
    let oldIndex := currentPosition.toIndex
    let jump := |newIndex - oldIndex|
    if jump ≠ 6 ∧ jump ≠ 10 ∧ jump ≠ 15 ∧ jump ≠ 17 then mthrow .InvalidMove
    else
      match b.getSquare newIndex with
      | none => none
      | some sq =>
        match sq.piece with
        | some p => if p.color = color then mthrow .InvalidCapture else mret ()
        | none => mret ()

/-- Function queen::can_move_to from queen.rs lines 34-66. -/
def queenCanMoveTo (currentPosition : Position) (color : Color) (position : Position)
    (b : Board) : MRes Unit :=
  let newIndex := position.toIndex
  let oldIndex := currentPosition.toIndex
  let jump := newIndex - oldIndex
  if Int.tmod jump 7 ≠ 0 ∧ Int.tmod jump 9 ≠ 0 ∧ Int.tmod jump 8 ≠ 0 ∧
      Int.tdiv jump 8 ≠ 0 then mthrow .InvalidMove
  else if |jump| < 7 ∧ position.y ≠ currentPosition.y then mthrow .InvalidMove
  else
    let pathResult : MRes Unit :=
      if Int.tmod jump 8 = 0 ∨ (Int.tdiv jump 8 = 0 ∧ position.y = currentPosition.y) then
        rookMove b oldIndex newIndex jump
      else if Int.tmod jump 7 = 0 ∨ Int.tmod jump 9 = 0 then
        bishopMove b oldIndex newIndex jump
      else mret ()
    match pathResult with
    | none => none
    | some (.error e) => some (.error e)
    | some (.ok _) =>
      match b.getSquare newIndex with
      | none => none
      | some sq =>
        match sq.piece with
        | some p => if p.color = color then mthrow .InvalidCapture else mret ()
        | none => mret ()

/-- Function pawn::can_move_to from pawn.rs lines 35-84.  The color match at
the top is written as the equivalent decidable disjunction. -/
def pawnCanMoveTo (currentPosition : Position) (color : Color) (isFirstMove : Bool)
    (position : Position) (b : Board) : MRes Unit :=
  let newIndex := position.toIndex
  let oldIndex := currentPosition.toIndex
  let jump := newIndex - oldIndex
  if (color = .Black ∧ jump > 0) ∨ (color = .White ∧ jump < 0) then mthrow .InvalidMove
  else
    let jumpA := |jump|
    if jumpA ≠ 8 ∧ jumpA ≠ 16 ∧ jumpA ≠ 7 ∧ jumpA ≠ 9 then mthrow .InvalidMove
    else if ¬isFirstMove ∧ jumpA = 16 then mthrow .InvalidMove
    else
      match b.square position with
      | none => none
      | some sq =>
        if (jumpA = 8 ∨ jumpA = 16) ∧ sq.piece.isSome then mthrow .InvalidMove
        else if (jumpA = 7 ∨ jumpA = 9) ∧ sq.piece.isNone then mthrow .InvalidMove
        else
          match sq.piece with
          | some otherPiece =>
            if otherPiece.color = color then mthrow .InvalidMove else mret ()
          | none => mret ()

/-- Helper valide_move shared by rook.rs lines 153-168 and bishop.rs lines
153-168: look at the square at the next index; on an occupied square push
it only for an enemy piece and stop the ray (continue flag false); on an
empty square push it and keep walking. -/
def valideMove (color : Color) (b : Board) (nextIndex : Int) (positions : List Position) :
    Option (List Position × Bool) :=
  match b.square (Position.fromIndex nextIndex) with
  | none => none
  | some sq =>
    match sq.piece with
    | some p =>
      some (if p.color ≠ color then positions ++ [Position.mk sq.x sq.y] else positions, false)
    | none => some (positions ++ [Position.mk sq.x sq.y], true)

/-- Ray loop of possible_moves in rook.rs lines 117-150 and bishop.rs lines
118-149: while the loop condition holds, run valide_move and advance by the
step; fuel 100 again can never be exhausted because every ray either leaves
the condition or panics within 64 iterations. -/
def ray (color : Color) (b : Board) (cond : Int → Bool) (stp : Int) :
    Nat → Int → List Position → Option (List Position)
  | 0, _, _ => none
  | fuel + 1, nextIndex, positions =>
    if cond nextIndex then
      match valideMove color b nextIndex positions with
      | none => none
      | some (ps, cont) =>
        if cont then ray color b cond stp fuel (nextIndex + stp) ps else some ps
    else some positions

/-- Function rook::possible_moves from rook.rs lines 112-151.  Note the
source conditions: the vertical rays run while the index is at most
BOARD_SQUARES = 64 (not 63) respectively at least 0, and the horizontal
rays run only while the index is divisible by 8. -/
def rookPossibleMoves (currentPosition : Position) (color : Color) (b : Board) :
    Option (List Position) :=
  let currentIndex := currentPosition.toIndex
  do
    let ps ← ray color b (fun n => decide (n ≤ 64)) 8 100 (currentIndex + 8) []
    let ps ← ray color b (fun n => decide (Int.tmod n 8 = 0)) 1 100 (currentIndex + 1) ps
    let ps ← ray color b (fun n => decide (0 ≤ n)) (-8) 100 (currentIndex - 8) ps
    ray color b (fun n => decide (Int.tmod n 8 = 0)) (-1) 100 (currentIndex - 1) ps

/-- Function bishop::possible_moves from bishop.rs lines 111-151, with the
same loop bound BOARD_SQUARES = 64 on the ascending rays. -/
def bishopPossibleMoves (currentPosition : Position) (color : Color) (b : Board) :
    Option (List Position) :=
  let currentIndex := currentPosition.toIndex
  do
    let ps ← ray color b (fun n => decide (n ≤ 64)) 7 100 (currentIndex + 7) []
    let ps ← ray color b (fun n => decide (n ≤ 64)) 9 100 (currentIndex + 9) ps
    let ps ← ray color b (fun n => decide (0 ≤ n)) (-7) 100 (currentIndex - 7) ps
    ray color b (fun n => decide (0 ≤ n)) (-9) 100 (currentIndex - 9) ps

/-- Candidate filter of the stepper possible_moves functions (knight.rs
lines 59-69, pawn.rs lines 86-108): build the position one delta away and
keep it when can_move_to answers Ok. -/
def filterCandidates (can : Position → MRes Unit) (currentIndex : Int) :
    List Int → Option (List Position)
  | [] => some []
  | m :: rest =>
    let nextPosition := Position.fromIndex (currentIndex + m)
    match can nextPosition with
    | none => none
    | some (.ok _) => (filterCandidates can currentIndex rest).map fun l => nextPosition :: l
    | some (.error _) => filterCandidates can currentIndex rest

/-- Function knight::possible_moves from knight.rs lines 59-69. -/
def knightPossibleMoves (currentPosition : Position) (color : Color) (b : Board) :
    Option (List Position) :=
  filterCandidates (fun next => knightCanMoveTo currentPosition color next b)
    currentPosition.toIndex [6, 10, 15, 17, -6, -10, -15, -17]

/-- Function pawn::possible_moves from pawn.rs lines 86-108. -/
def pawnPossibleMoves (currentPosition : Position) (color : Color) (isFirstMove : Bool)
    (b : Board) : Option (List Position) :=
  let moves : List Int :=
    match color, isFirstMove with
    | .Black, true => [-8, -16, -7, -9]
    | .Black, false => [-8, -7, -9]
    | .White, true => [8, 16, 7, 9]
    | .White, false => [8, 7, 9]
  filterCandidates (fun next => pawnCanMoveTo currentPosition color isFirstMove next b)
    currentPosition.toIndex moves

/-- Function queen::possible_moves from queen.rs lines 68-73: bishop rays
followed by rook rays. -/
def queenPossibleMoves (currentPosition : Position) (color : Color) (b : Board) :
    Option (List Position) :=
  do
    let bishopPositions ← bishopPossibleMoves currentPosition color b
    let rookPositions ← rookPossibleMoves currentPosition color b
    pure (bishopPositions ++ rookPositions)

/-- Board holding a single white rook on a1 and nothing else. -/
def rookA1Board : Board :=
  ⟨setPieceList getSquares 0 (some (.Rook .White ⟨97, 1⟩))⟩

/-- Board holding a single black rook on a1 and nothing else. -/
def rookA1BlackBoard : Board :=
  ⟨setPieceList getSquares 0 (some (.Rook .Black ⟨97, 1⟩))⟩

/-- Claim C3: for a rook of either color at a1 on an otherwise-empty board,
possible_moves does not return the 14 squares of the a-file and the first
rank; it panics.  The ascending file ray runs while the next index is at
most BOARD_SQUARES = 64 and therefore indexes squares[64], one past the end
of the vector (and the first-rank ray condition next % 8 == 0 is false at
index 1, so no horizontal square would ever have been produced).  The
returned none is that out-of-bounds panic. -/
theorem rookPossibleMoves_a1_panics :
    rookPossibleMoves ⟨97, 1⟩ .White rookA1Board = none ∧
    rookPossibleMoves ⟨97, 1⟩ .Black rookA1BlackBoard = none := by
  decide

/-- Board holding a single white rook on a2 and nothing else. -/
def rookA2Board : Board :=
  ⟨setPieceList getSquares 8 (some (.Rook .White ⟨97, 2⟩))⟩

/-- Board holding a single white bishop on b1 and nothing else. -/
def bishopB1Board : Board :=
  ⟨setPieceList getSquares 1 (some (.Bishop .White ⟨98, 1⟩))⟩

/-- Claim C10: the ray walks of rook::possible_moves and
bishop::possible_moves do not stay inside cell indices 0..63.  With an
unblocked ascending ray the loop condition next <= BOARD_SQUARES (= 64)
admits the index 64, and valide_move then reads squares[64], one past the
end: a rook on a2 walks 16, 24, ..., 56, 64 and panics, and a bishop on b1
walks 8, 15, ..., 57, 64 and panics.  The returned none is that
out-of-bounds access. -/
theorem possibleMoves_out_of_bounds :
    rookPossibleMoves ⟨97, 2⟩ .White rookA2Board = none ∧
    bishopPossibleMoves ⟨98, 1⟩ .White bishopB1Board = none := by
  decide

/-- Threat scan of king::can_move_to (king.rs lines 41-74): walk the
opposing pieces in cell order; an opposing king within index distance
1, 7, 8 or 9 of the destination, an opposing pawn exactly 7 or 9 indices
above it, or any other opposing piece whose own can_move_to accepts the
destination, aborts with UnSafeKing.  The catch-all arm dispatches on the
remaining kinds (rook, bishop, knight, queen), matching the source's
piece.can_move_to call. -/
def kingThreatScan (newIndex : Int) (position : Position) (b : Board) :
    List PieceType → MRes Unit
  | [] => mret ()
  | piece :: rest =>
    match piece with
    | .King _ otherKingPosition =>
      let kingIndex := otherKingPosition.toIndex
      if kingIndex = newIndex + 7 ∨ kingIndex = newIndex - 7 ∨ kingIndex = newIndex + 8 ∨
          kingIndex = newIndex - 8 ∨ kingIndex = newIndex + 9 ∨ kingIndex = newIndex - 9 ∨
          kingIndex = newIndex + 1 ∨ kingIndex = newIndex - 1 then mthrow .UnSafeKing
      else kingThreatScan newIndex position b rest
    | .Pawn _ pawnPosition _ =>
      if pawnPosition.toIndex = newIndex + 7 ∨ pawnPosition.toIndex = newIndex + 9 then
        mthrow .UnSafeKing
      else kingThreatScan newIndex position b rest
    | .Rook c cp =>
      match rookCanMoveTo cp c position b with
      | none => none
      | some (.ok _) => mthrow .UnSafeKing
      | some (.error _) => kingThreatScan newIndex position b rest
    | .Bishop c cp =>
      match bishopCanMoveTo cp c position b with
      | none => none
      | some (.ok _) => mthrow .UnSafeKing
      | some (.error _) => kingThreatScan newIndex position b rest
    | .Knight c cp =>
      match knightCanMoveTo cp c position b with
      | none => none
      | some (.ok _) => mthrow .UnSafeKing
      | some (.error _) => kingThreatScan newIndex position b rest
    | .Queen c cp =>
      match queenCanMoveTo cp c position b with
      | none => none
      | some (.ok _) => mthrow .UnSafeKing
      | some (.error _) => kingThreatScan newIndex position b rest

/-- Function king::can_move_to from king.rs lines 26-83: single-step
geometry first, then the threat scan, and only then the same-color capture
check. -/
def kingCanMoveTo (currentPosition : Position) (color : Color) (position : Position)
    (b : Board) : MRes Unit :=
  let newIndex := position.toIndex
  let oldIndex := currentPosition.toIndex
  let jump := |newIndex - oldIndex|
  if jump ≠ 7 ∧ jump ≠ 8 ∧ jump ≠ 9 ∧ jump ≠ 1 then mthrow .InvalidMove
  else
    let otherPieces :=
      match color with
      | .Black => b.getAllWhitePieces
      | .White => b.getAllBlackPieces
    match kingThreatScan newIndex position b otherPieces with
    | none => none
    | some (.error e) => some (.error e)
    | some (.ok _) =>
      match b.square position with
      | none => none
      | some sq =>
        match sq.piece with
        | some p => if p.color = color then mthrow .InvalidCapture else mret ()
        | none => mret ()

/-- Attacker loop of king::is_check (king.rs lines 95-112): opposing kings
are skipped, opposing pawns attack when sitting exactly 7 or 9 indices
above the king's square, every other kind attacks when its can_move_to
accepts the king's square. -/
def checkScan (newIndex : Int) (position : Position) (b : Board) :
    List PieceType → Option Bool
  | [] => some false
  | piece :: rest =>
    match piece with
    | .King _ _ => checkScan newIndex position b rest
    | .Pawn _ pawnPosition _ =>
      if pawnPosition.toIndex = newIndex + 7 ∨ pawnPosition.toIndex = newIndex + 9 then some true
      else checkScan newIndex position b rest
    | .Rook c cp =>
      match rookCanMoveTo cp c position b with
      | none => none
      | some (.ok _) => some true
      | some (.error _) => checkScan newIndex position b rest
    | .Bishop c cp =>
      match bishopCanMoveTo cp c position b with
      | none => none
      | some (.ok _) => some true
      | some (.error _) => checkScan newIndex position b rest
    | .Knight c cp =>
      match knightCanMoveTo cp c position b with
      | none => none
      | some (.ok _) => some true
      | some (.error _) => checkScan newIndex position b rest
    | .Queen c cp =>
      match queenCanMoveTo cp c position b with
      | none => none
      | some (.ok _) => some true
      | some (.error _) => checkScan newIndex position b rest

/-- Function king::is_check from king.rs lines 85-118. -/
def kingIsCheck (king : PieceType) (b : Board) : Option Bool :=
  match king with
  | .King color position =>
    let otherPieces :=
      match color with
      | .Black => b.getAllWhitePieces
      | .White => b.getAllBlackPieces
    checkScan position.toIndex position b otherPieces
  | _ => some false

/-- Single probe of king::can_king_move_safe_position (king.rs lines
130-182): guarded by current_index < 63 on the ascending side and
current_index > 0 on the descending side, read the square at index
current plus-or-minus the offset; if it holds an enemy piece, clear it on
the working board and test is_check at that square; a result of not in
check returns early (some none below), otherwise probing continues on the
mutated working board. -/
def kingProbe (color : Color) (currentIndex : Int) (off : Int) (isPlus : Bool) (tmp : Board) :
    Option (Option Board) :=
  if (if isPlus then currentIndex < 63 else currentIndex > 0) then
    match tmp.square (Position.fromIndex (if isPlus then currentIndex + off
        else currentIndex - off)) with
    | none => none
    | some sq =>
      match sq.piece with
      | some piece =>
        if piece.color ≠ color then
          let nextPosition := Position.mk sq.x sq.y
          match tmp.setPieceO nextPosition.toIndex none with
          | none => none
          | some tmp2 =>
            match kingIsCheck (.King color nextPosition) tmp2 with
            | none => none
            | some ch => if ch then some (some tmp2) else some none
        else some (some tmp)
      | none => some (some tmp)
  else some (some tmp)

/-- Sequencing of the eight probes: some false is the early return of the
source (a relocation that is not in check was found), some true is the
fall-through return value true. -/
def probeSeq (color : Color) (currentIndex : Int) :
    List (Int × Bool) → Board → Option Bool
  | [], _ => some true
  | (off, isPlus) :: rest, tmp =>
    match kingProbe color currentIndex off isPlus tmp with
    | none => none
    | some none => some false
    | some (some tmp2) => probeSeq color currentIndex rest tmp2

/-- Probe order of king.rs lines 130-182: the loop for i in 7..10 issues an
ascending and a descending probe for offsets 7, 8, 9, followed by the two
explicit offset-1 probes. -/
def probeOffsets : List (Int × Bool) :=
  [(7, true), (7, false), (8, true), (8, false), (9, true), (9, false), (1, true), (1, false)]

/-- Function king::can_king_move_safe_position from king.rs lines 120-188:
clone the board, remove the king from its current cell, then run the eight
probes. -/
def canKingMoveSafePosition (king : PieceType) (b : Board) : Option Bool :=
  match king with
  | .King color currentPosition =>
    let currentIndex := currentPosition.toIndex
    match b.setPieceO currentIndex none with
    | none => none
    | some tmp => probeSeq color currentIndex probeOffsets tmp
  | _ => some false

/-- Candidate loop of king::possible_moves from king.rs lines 190-207: a
delta whose target index leaves 0..63 is skipped before from_index is
taken. -/
def kingPossibleMovesAux (currentPosition : Position) (color : Color) (b : Board) :
    List Int → Option (List Position)
  | [] => some []
  | m :: rest =>
    if currentPosition.toIndex + m < 0 ∨ 64 ≤ currentPosition.toIndex + m then
      kingPossibleMovesAux currentPosition color b rest
    else
      let nextPosition := Position.fromIndex (currentPosition.toIndex + m)
      match kingCanMoveTo currentPosition color nextPosition b with
      | none => none
      | some (.ok _) =>
        (kingPossibleMovesAux currentPosition color b rest).map fun l => nextPosition :: l
      | some (.error _) => kingPossibleMovesAux currentPosition color b rest

/-- Function king::possible_moves from king.rs lines 190-207. -/
def kingPossibleMoves (currentPosition : Position) (color : Color) (b : Board) :
    Option (List Position) :=
  kingPossibleMovesAux currentPosition color b [7, 8, 9, 1, -7, -8, -9, -1]

/-- PieceType::possible_moves. Modelled from the spec: one match arm per
kind dispatching to that kind's rule module (spec sections 4.3 and 9); the
dispatching enum impl is the part of pieces/mod.rs missing from the src
snapshot, its callers (ai.rs) and the modules themselves are in src. -/
def PieceType.possibleMoves : PieceType → Board → Option (List Position)
  | .Pawn c p f, b => pawnPossibleMoves p c f b
  | .Rook c p, b => rookPossibleMoves p c b
  | .Bishop c p, b => bishopPossibleMoves p c b
  | .Knight c p, b => knightPossibleMoves p c b
  | .Queen c p, b => queenPossibleMoves p c b
  | .King c p, b => kingPossibleMoves p c b

/-- Mutating tail common to the move_to functions of the piece modules
(for example king.rs lines 14-18, rook.rs lines 16-21, pawn.rs lines
20-27): read the captured occupant of the destination, clear the moved
piece's stored cell, write the new piece value carrying the destination
position, and return the captured piece.  The board component of the
result is the state reached when the second component is a panic. -/
def applyMove (b : Board) (currentPosition position : Position) (newPiece : PieceType) :
    Board × MRes (Option PieceType) :=
  match b.square position with
  | none => (b, none)
  | some sq =>
    let captured := sq.piece
    match b.setPieceO currentPosition.toIndex none with
    | none => (b, none)
    | some b1 =>
      match b1.setPieceO position.toIndex (some newPiece) with
      | none => (b1, none)
      | some b2 => (b2, mret captured)

/-- Function rook::move_to from rook.rs lines 7-27. -/
def rookMoveTo (color : Color) (currentPosition position : Position) (b : Board) :
    Board × MRes (Option PieceType) :=
  match rookCanMoveTo currentPosition color position b with
  | none => (b, none)
  | some (.error e) => (b, mthrow e)
  | some (.ok _) => applyMove b currentPosition position (.Rook color position)

/-- Function bishop::move_to from bishop.rs lines 11-30. -/
def bishopMoveTo (color : Color) (currentPosition position : Position) (b : Board) :
    Board × MRes (Option PieceType) :=
  match bishopCanMoveTo currentPosition color position b with
  | none => (b, none)
  | some (.error e) => (b, mthrow e)
  | some (.ok _) => applyMove b currentPosition position (.Bishop color position)

/-- Function knight::move_to from knight.rs lines 7-29. -/
def knightMoveTo (color : Color) (currentPosition position : Position) (b : Board) :
    Board × MRes (Option PieceType) :=
  match knightCanMoveTo currentPosition color position b with
  | none => (b, none)
  | some (.error e) => (b, mthrow e)
  | some (.ok _) => applyMove b currentPosition position (.Knight color position)

/-- Function queen::move_to from queen.rs lines 10-32. -/
def queenMoveTo (color : Color) (currentPosition position : Position) (b : Board) :
    Board × MRes (Option PieceType) :=
  match queenCanMoveTo currentPosition color position b with
  | none => (b, none)
  | some (.error e) => (b, mthrow e)
  | some (.ok _) => applyMove b currentPosition position (.Queen color position)

/-- Function king::move_to from king.rs lines 5-24. -/
def kingMoveTo (color : Color) (currentPosition position : Position) (b : Board) :
    Board × MRes (Option PieceType) :=
  match kingCanMoveTo currentPosition color position b with
  | none => (b, none)
  | some (.error e) => (b, mthrow e)
  | some (.ok _) => applyMove b currentPosition position (.King color position)

/-- Function pawn::pawn_move_to from pawn.rs lines 11-33: the rewritten
pawn carries a cleared first-move flag. -/
def pawnMoveTo (color : Color) (currentPosition : Position) (isFirstMove : Bool)
    (position : Position) (b : Board) : Board × MRes (Option PieceType) :=
  match pawnCanMoveTo currentPosition color isFirstMove position b with
  | none => (b, none)
  | some (.error e) => (b, mthrow e)
  | some (.ok _) => applyMove b currentPosition position (.Pawn color position false)

/-- PieceType::move_to. Modelled from the spec: tagged dispatch to the
per-kind move_to functions (spec sections 4.3 and 9), whose bodies are in
src. -/
def PieceType.moveTo : PieceType → Position → Board → Board × MRes (Option PieceType)
  | .Pawn c p f, pos, b => pawnMoveTo c p f pos b
  | .Rook c p, pos, b => rookMoveTo c p pos b
  | .Bishop c p, pos, b => bishopMoveTo c p pos b
  | .Knight c p, pos, b => knightMoveTo c p pos b
  | .Queen c p, pos, b => queenMoveTo c p pos b
  | .King c p, pos, b => kingMoveTo c p pos b

/-- BoardTrait::move_piece from board.rs lines 160-172: take() removes the
piece from the source square before any validation, then the piece's
move_to performs its own legality check.  The board component of the result
is the caller-visible state of the &mut receiver after the call. -/
def Board.movePiece (b : Board) (fromPos toPos : Position) :
    Board × MRes (Option PieceType) :=
  let fromIndex := fromPos.toIndex
  match b.getSquare fromIndex with
  | none => (b, none)
  | some sq =>
    match b.setPieceO fromIndex none with
    | none => (b, none)
    | some b1 =>
      match sq.piece with
      | none => (b1, mthrow .InvalidMove)
      | some piece => piece.moveTo toPos b1

/-- Inner loop of ai::generate_move (ai.rs lines 19-34) over one piece's
possible moves, threading the running (best_score, best_move) pair;
errors of the simulated move_to are swallowed, its panics propagate. -/
def gmMoves (color : Color) (b : Board) (piece : PieceType) :
    List Position → (Int × Option (PieceType × Position)) →
    Option (Int × Option (PieceType × Position))
  | [], st => some st
  | newPosition :: rest, st =>
    match piece.moveTo newPosition b with
    | (_, none) => none
    | (_, some (.error _)) => gmMoves color b piece rest st
    | (futureBoard, some (.ok _)) =>
      let score := futureBoard.evaluate color
      gmMoves color b piece rest (if score > st.1 then (score, some (piece, newPosition)) else st)

/-- Outer loop of ai::generate_move over the pieces of the moving color. -/
def gmPieces (color : Color) (b : Board) :
    List PieceType → (Int × Option (PieceType × Position)) →
    Option (Int × Option (PieceType × Position))
  | [], st => some st
  | piece :: rest, st =>
    match piece.possibleMoves b with
    | none => none
    | some ps =>
      match gmMoves color b piece ps st with
      | none => none
      | some st2 => gmPieces color b rest st2

/-- Function ai::generate_move from ai.rs lines 11-37: best score starts at
0, a simulated move is kept only when its evaluation is strictly greater
than the running best. -/
def generateMove (color : Color) (b : Board) : Option (Option (PieceType × Position)) :=
  let pieces :=
    match color with
    | .Black => b.getAllBlackPieces
    | .White => b.getAllWhitePieces
  match gmPieces color b pieces (0, none) with
  | none => none
  | some st => some st.2

/-- Claim C1 (code bug): move_piece does not leave the board unchanged on
error.  On the standard opening board, moving a1 to b2 is rejected with
InvalidMove by the rook's geometry check, yet the take() executed before
validation has already emptied a1: the resulting board differs from the
input board. -/
theorem movePiece_err_mutates :
    (newBoard.movePiece ⟨97, 1⟩ ⟨98, 2⟩).2 = mthrow .InvalidMove ∧
    (newBoard.movePiece ⟨97, 1⟩ ⟨98, 2⟩).1 ≠ newBoard := by
  decide

set_option maxRecDepth 8000 in
/-- Claim C5 (code bug): generate_move for White on the standard opening
board returns None, not Some.  Every simulated opening move captures
nothing, so every evaluation is 0 and the strict comparison against the
starting best score 0 never accepts a move — contradicting the test
test_generate_move in ai.rs and the spec. -/
theorem generateMove_opening_none :
    generateMove .White newBoard = some none := by
  decide

/-- Analysis device (not a source function): the list of (move, score)
pairs that generate_move's inner loop inspects for one piece, in iteration
order, with failed simulations dropped and panics propagated. -/
def candMoves (color : Color) (b : Board) (piece : PieceType) :
    List Position → Option (List ((PieceType × Position) × Int))
  | [] => some []
  | newPosition :: rest =>
    match piece.moveTo newPosition b with
    | (_, none) => none
    | (_, some (.error _)) => candMoves color b piece rest
    | (futureBoard, some (.ok _)) =>
      (candMoves color b piece rest).map fun l =>
        ((piece, newPosition), futureBoard.evaluate color) :: l

/-- Analysis device: concatenation of candMoves over the pieces in
iteration order. -/
def candPieces (color : Color) (b : Board) :
    List PieceType → Option (List ((PieceType × Position) × Int))
  | [] => some []
  | piece :: rest =>
    match piece.possibleMoves b with
    | none => none
    | some ps =>
      match candMoves color b piece ps with
      | none => none
      | some l1 => (candPieces color b rest).map fun l2 => l1 ++ l2

/-- Analysis device: every (move, score) pair generate_move simulates, in
iteration order; none exactly when generate_move panics. -/
def candidates (color : Color) (b : Board) :
    Option (List ((PieceType × Position) × Int)) :=
  let pieces :=
    match color with
    | .Black => b.getAllBlackPieces
    | .White => b.getAllWhitePieces
  candPieces color b pieces

/-- Update step of generate_move's best-tracking: strictly greater scores
replace the running pair. -/
def selectStep {α : Type} (st : Int × Option α) (c : α × Int) : Int × Option α :=
  if c.2 > st.1 then (c.2, some c.1) else st

lemma gmMoves_eq_candMoves (color : Color) (b : Board) (piece : PieceType) :
    ∀ (ps : List Position) (st : Int × Option (PieceType × Position)),
      gmMoves color b piece ps st =
        (candMoves color b piece ps).map fun l => l.foldl selectStep st := by
  intro ps
  induction ps with
  | nil => intro st; simp [gmMoves, candMoves]
  | cons p rest ih =>
    intro st
    simp only [gmMoves, candMoves]
    cases h : piece.moveTo p b with
    | mk fb r =>
      cases r with
      | none => simp
      | some exc =>
        cases exc with
        | error e => simpa using ih st
        | ok a =>
          simp only [ih]
          cases hc : candMoves color b piece rest with
          | none => simp
          | some l => simp [selectStep, List.foldl_cons]

lemma gmPieces_eq_candPieces (color : Color) (b : Board) :
    ∀ (pieces : List PieceType) (st : Int × Option (PieceType × Position)),
      gmPieces color b pieces st =
        (candPieces color b pieces).map fun l => l.foldl selectStep st := by
  intro pieces
  induction pieces with
  | nil => intro st; simp [gmPieces, candPieces]
  | cons piece rest ih =>
    intro st
    simp only [gmPieces, candPieces]
    cases hm : piece.possibleMoves b with
    | none => simp
    | some ps =>
      simp only [gmMoves_eq_candMoves]
      cases hc : candMoves color b piece ps with
      | none => simp
      | some l1 =>
        simp only [Option.map_some', ih]
        cases hr : candPieces color b rest with
        | none => simp
        | some l2 => simp [List.foldl_append]

lemma generateMove_eq_candidates (color : Color) (b : Board) :
    generateMove color b =
      (candidates color b).map fun l => (l.foldl selectStep (0, none)).2 := by
  simp only [generateMove, candidates, gmPieces_eq_candPieces]
  cases candPieces color b
    (match color with
     | .Black => b.getAllBlackPieces
     | .White => b.getAllWhitePieces) with
  | none => simp
  | some l => simp

lemma foldl_selectStep_isSome {α : Type} :
    ∀ (l : List (α × Int)) (s : Int) (m : α),
      ((l.foldl selectStep (s, some m)).2).isSome := by
  intro l
  induction l with
  | nil => intro s m; simp
  | cons c rest ih =>
    intro s m
    simp only [List.foldl_cons, selectStep]
    by_cases h : c.2 > s
    · rw [if_pos h]; exact ih c.2 c.1
    · rw [if_neg h]; exact ih s m

lemma foldl_selectStep_none_iff {α : Type} :
    ∀ (l : List (α × Int)) (s : Int),
      (l.foldl selectStep (s, (none : Option α))).2 = none ↔ ∀ c ∈ l, c.2 ≤ s := by
  intro l
  induction l with
  | nil => intro s; simp
  | cons c rest ih =>
    intro s
    simp only [List.foldl_cons, selectStep]
    by_cases h : c.2 > s
    · rw [if_pos h]
      constructor
      · intro hn
        exfalso
        have hs := foldl_selectStep_isSome rest c.2 c.1
        rw [hn] at hs
        simp at hs
      · intro hall
        exfalso
        have := hall c (by simp)
        omega
    · rw [if_neg h, ih]
      constructor
      · intro hall x hx
        rcases List.mem_cons.mp hx with hx | hx
        · subst hx; omega
        · exact hall x hx
      · intro hall x hx
        exact hall x (List.mem_cons_of_mem _ hx)

lemma foldl_selectStep_some {α : Type} :
    ∀ (l : List (α × Int)) (s : Int) (m0 : Option α) (m : α),
      (l.foldl selectStep (s, m0)).2 = some m →
      (m0 = some m ∧ ∀ c ∈ l, c.2 ≤ s) ∨
      (∃ sc l1 l2, l = l1 ++ (m, sc) :: l2 ∧ s < sc ∧
        (∀ c ∈ l1, c.2 < sc) ∧ (∀ c ∈ l2, c.2 ≤ sc)) := by
  intro l
  induction l with
  | nil =>
    intro s m0 m h
    simp only [List.foldl_nil] at h
    exact Or.inl ⟨h, by simp⟩
  | cons c rest ih =>
    intro s m0 m h
    obtain ⟨c1, c2⟩ := c
    simp only [List.foldl_cons, selectStep] at h
    by_cases hgt : c2 > s
    · rw [if_pos hgt] at h
      rcases ih c2 (some c1) m h with ⟨he, hall⟩ | ⟨sc, l1, l2, heq, hsc, h1, h2⟩
      · right
        refine ⟨c2, [], rest, ?_, hgt, by simp, hall⟩
        have : c1 = m := by simpa using he
        simp [this]
      · right
        refine ⟨sc, (c1, c2) :: l1, l2, by simp [heq], by omega, ?_, h2⟩
        intro x hx
        rcases List.mem_cons.mp hx with hx | hx
        · subst hx; simpa using hsc
        · exact h1 x hx
    · rw [if_neg hgt] at h
      rcases ih s m0 m h with ⟨he, hall⟩ | ⟨sc, l1, l2, heq, hsc, h1, h2⟩
      · left
        refine ⟨he, ?_⟩
        intro x hx
        rcases List.mem_cons.mp hx with hx | hx
        · subst hx; simpa using le_of_not_lt hgt
        · exact hall x hx
      · right
        refine ⟨sc, (c1, c2) :: l1, l2, by simp [heq], hsc, ?_, h2⟩
        intro x hx
        rcases List.mem_cons.mp hx with hx | hx
        · subst hx; simp; omega
        · exact h1 x hx

/-- Claim C4: generate_move keeps the single highest-scoring (piece,
target) pair with strict greater-than against a starting best score of
zero.  Given the candidate list l of its successfully simulated moves in
iteration order, generate_move returns None exactly when every candidate
scores at most 0 (even when candidates, hence legal moves, exist), and a
returned move is the first candidate attaining its score sc, with sc
strictly positive, every earlier candidate scoring strictly below sc and
every later one at most sc. -/
theorem generateMove_greedy_spec :
    ∀ (color : Color) (b : Board) (l : List ((PieceType × Position) × Int)),
      candidates color b = some l →
      ((generateMove color b = some none ↔ ∀ c ∈ l, c.2 ≤ 0) ∧
       ∀ m, generateMove color b = some (some m) →
         ∃ sc l1 l2, l = l1 ++ (m, sc) :: l2 ∧ 0 < sc ∧
           (∀ c ∈ l1, c.2 < sc) ∧ (∀ c ∈ l2, c.2 ≤ sc)) := by
  intro color b l hc
  have hg := generateMove_eq_candidates color b
  rw [hc] at hg
  simp only [Option.map_some'] at hg
  constructor
  · rw [hg]
    simp only [Option.some.injEq]
    exact foldl_selectStep_none_iff l 0
  · intro m hm
    rw [hg] at hm
    simp only [Option.some.injEq] at hm
    rcases foldl_selectStep_some l 0 none m hm with ⟨he, _⟩ | hr
    · simp at he
    · exact hr

/-- Board holding a single white knight on b1 and nothing else. -/
def knightB1Board : Board :=
  ⟨setPieceList getSquares 1 (some (.Knight .White ⟨98, 1⟩))⟩

/-- Candidate list of the lone-knight board: four quiet knight moves, each
evaluated at a material score of 3. -/
def knightCandList : List ((PieceType × Position) × Int) :=
  [((.Knight .White ⟨98, 1⟩, ⟨104, 1⟩), 3),
   ((.Knight .White ⟨98, 1⟩, ⟨100, 2⟩), 3),
   ((.Knight .White ⟨98, 1⟩, ⟨97, 3⟩), 3),
   ((.Knight .White ⟨98, 1⟩, ⟨99, 3⟩), 3)]

/-- Witness for C4: on the lone-knight board the candidate list is the
concrete four-element list above, and since its first candidate scores
3 > 0 the characterization forces generate_move not to return None. -/
theorem generateMove_greedy_spec_witness :
    candidates .White knightB1Board = some knightCandList ∧
    generateMove .White knightB1Board ≠ some none :=
  ⟨by decide, fun h => by
    have hiff :=
      (generateMove_greedy_spec .White knightB1Board knightCandList (by decide)).1
    have hall := hiff.mp h
    exact absurd (hall ((.Knight .White ⟨98, 1⟩, ⟨104, 1⟩), 3) (by decide)) (by decide)⟩

lemma walkPath_values (b : Board) (s : Int) (u : Bool) :
    ∀ (fuel : Nat) (i t : Int),
      walkPath b s u fuel i t = mret () ∨ walkPath b s u fuel i t = mthrow .BlockedMove ∨
      walkPath b s u fuel i t = none := by
  intro fuel
  induction fuel with
  | zero => intro i t; right; right; rfl
  | succ n ih =>
    intro i t
    simp only [walkPath]
    by_cases h : i = t
    · simp [h]
    · simp only [if_neg h]
      cases hs : b.square (Position.fromIndex (if u then |i| else i)) with
      | none => simp
      | some sq =>
        by_cases hp : sq.piece.isSome = true
        · simp [hp]
        · simp only [hp, if_false, Bool.false_eq_true]
          exact ih (i + s) t

lemma rookMove_values (b : Board) (oi ni j : Int) :
    rookMove b oi ni j = mret () ∨ rookMove b oi ni j = mthrow .BlockedMove ∨
    rookMove b oi ni j = none := by
  unfold rookMove
  split_ifs <;> apply walkPath_values

lemma bishopMove_values (b : Board) (oi ni j : Int) :
    bishopMove b oi ni j = mret () ∨ bishopMove b oi ni j = mthrow .BlockedMove ∨
    bishopMove b oi ni j = none := by
  unfold bishopMove
  split_ifs <;> apply walkPath_values

lemma kingThreatScan_values (ni : Int) (pos : Position) (b : Board) :
    ∀ ps : List PieceType,
      kingThreatScan ni pos b ps = mret () ∨ kingThreatScan ni pos b ps = mthrow .UnSafeKing ∨
      kingThreatScan ni pos b ps = none := by
  intro ps
  induction ps with
  | nil => left; rfl
  | cons piece rest ih =>
    cases piece with
    | King c kp =>
      simp only [kingThreatScan]
      split_ifs
      · right; left; rfl
      · exact ih
    | Pawn c pp f =>
      simp only [kingThreatScan]
      split_ifs
      · right; left; rfl
      · exact ih
    | Rook c cp =>
      simp only [kingThreatScan]
      cases rookCanMoveTo cp c pos b with
      | none => simp
      | some exc => cases exc with
        | error e => exact ih
        | ok a => right; left; rfl
    | Bishop c cp =>
      simp only [kingThreatScan]
      cases bishopCanMoveTo cp c pos b with
      | none => simp
      | some exc => cases exc with
        | error e => exact ih
        | ok a => right; left; rfl
    | Knight c cp =>
      simp only [kingThreatScan]
      cases knightCanMoveTo cp c pos b with
      | none => simp
      | some exc => cases exc with
        | error e => exact ih
        | ok a => right; left; rfl
    | Queen c cp =>
      simp only [kingThreatScan]
      cases queenCanMoveTo cp c pos b with
      | none => simp
      | some exc => cases exc with
        | error e => exact ih
        | ok a => right; left; rfl

lemma rook_sameColor_outcomes (currentPosition position : Position) (color : Color) (b : Board)
    (sq : Square) (q : PieceType) (hsq : b.square position = some sq)
    (hp : sq.piece = some q) (hqc : q.color = color) :
    rookCanMoveTo currentPosition color position b = mthrow .InvalidMove ∨
    rookCanMoveTo currentPosition color position b = mthrow .BlockedMove ∨
    rookCanMoveTo currentPosition color position b = none ∨
    rookCanMoveTo currentPosition color position b = mthrow .InvalidCapture := by
  simp only [rookCanMoveTo]
  split_ifs
  · left; rfl
  · left; rfl
  · rcases rookMove_values b currentPosition.toIndex position.toIndex
        (position.toIndex - currentPosition.toIndex) with h | h | h <;>
      simp [h, mret, mthrow, hsq, hp, hqc]

lemma bishop_sameColor_outcomes (currentPosition position : Position) (color : Color) (b : Board)
    (sq : Square) (q : PieceType) (hsq : b.square position = some sq)
    (hp : sq.piece = some q) (hqc : q.color = color) :
    bishopCanMoveTo currentPosition color position b = mthrow .InvalidMove ∨
    bishopCanMoveTo currentPosition color position b = mthrow .BlockedMove ∨
    bishopCanMoveTo currentPosition color position b = none ∨
    bishopCanMoveTo currentPosition color position b = mthrow .InvalidCapture := by
  simp only [bishopCanMoveTo]
  split_ifs
  · left; rfl
  · rcases bishopMove_values b currentPosition.toIndex position.toIndex
        (position.toIndex - currentPosition.toIndex) with h | h | h <;>
      simp [h, mret, mthrow, hsq, hp, hqc]

lemma knight_sameColor_outcomes (currentPosition position : Position) (color : Color) (b : Board)
    (sq : Square) (q : PieceType) (hsq : b.square position = some sq)
    (hp : sq.piece = some q) (hqc : q.color = color) :
    knightCanMoveTo currentPosition color position b = mthrow .InvalidMove ∨
    knightCanMoveTo currentPosition color position b = mthrow .InvalidCapture := by
  simp only [Board.square] at hsq
  simp only [knightCanMoveTo]
  split_ifs
  · left; rfl
  · left; rfl
  · simp [hsq, hp, hqc, mret, mthrow]

lemma queen_sameColor_outcomes (currentPosition position : Position) (color : Color) (b : Board)
    (sq : Square) (q : PieceType) (hsq : b.square position = some sq)
    (hp : sq.piece = some q) (hqc : q.color = color) :
    queenCanMoveTo currentPosition color position b = mthrow .InvalidMove ∨
    queenCanMoveTo currentPosition color position b = mthrow .BlockedMove ∨
    queenCanMoveTo currentPosition color position b = none ∨
    queenCanMoveTo currentPosition color position b = mthrow .InvalidCapture := by
  simp only [Board.square] at hsq
  simp only [queenCanMoveTo]
  split_ifs
  · left; rfl
  · left; rfl
  · rcases rookMove_values b currentPosition.toIndex position.toIndex
        (position.toIndex - currentPosition.toIndex) with h | h | h <;>
      simp [h, mret, mthrow, hsq, hp, hqc]
  · rcases bishopMove_values b currentPosition.toIndex position.toIndex
        (position.toIndex - currentPosition.toIndex) with h | h | h <;>
      simp [h, mret, mthrow, hsq, hp, hqc]
  · simp [mret, mthrow, hsq, hp, hqc]

lemma king_sameColor_outcomes (currentPosition position : Position) (color : Color) (b : Board)
    (sq : Square) (q : PieceType) (hsq : b.square position = some sq)
    (hp : sq.piece = some q) (hqc : q.color = color) :
    kingCanMoveTo currentPosition color position b = mthrow .InvalidMove ∨
    kingCanMoveTo currentPosition color position b = mthrow .UnSafeKing ∨
    kingCanMoveTo currentPosition color position b = none ∨
    kingCanMoveTo currentPosition color position b = mthrow .InvalidCapture := by
  cases color with
  | White =>
    simp only [kingCanMoveTo]
    split_ifs
    · left; rfl
    · rcases kingThreatScan_values position.toIndex position b b.getAllBlackPieces
        with h | h | h <;> simp [h, mret, mthrow, hsq, hp, hqc]
  | Black =>
    simp only [kingCanMoveTo]
    split_ifs
    · left; rfl
    · rcases kingThreatScan_values position.toIndex position b b.getAllWhitePieces
        with h | h | h <;> simp [h, mret, mthrow, hsq, hp, hqc]

/-- Board with a white pawn on b2 and a white knight on c3. -/
def pawnCaptureCexBoard : Board :=
  ⟨setPieceList (setPieceList getSquares 9 (some (.Pawn .White ⟨98, 2⟩ true))) 18
    (some (.Knight .White ⟨99, 3⟩))⟩

/-- Counterexample to claim C7 as stated: the white pawn on b2 moving
diagonally onto the white knight on c3 passes the pawn's geometry checks
(forward diagonal step onto an occupied square) yet fails with InvalidMove,
not InvalidCapture. -/
theorem pawn_sameColor_invalidMove_cex :
    pawnCanMoveTo ⟨98, 2⟩ .White true ⟨99, 3⟩ pawnCaptureCexBoard = mthrow .InvalidMove ∧
    (mthrow .InvalidMove : MRes Unit) ≠ mthrow .InvalidCapture := by
  decide

/-- Claim C7 as amended: when the destination square holds a piece of the
mover's own color, the can_move_to of rook, bishop, knight, queen and king
that does not already fail with a geometry or path error (InvalidMove,
BlockedMove, for the king also UnSafeKing) or panic, fails with
InvalidCapture; the pawn instead always rejects such a move with
InvalidMove — its can_move_to never produces InvalidCapture. -/
theorem canMoveTo_sameColor_capture :
    ∀ (currentPosition position : Position) (color : Color) (b : Board)
      (sq : Square) (q : PieceType),
      b.square position = some sq → sq.piece = some q → q.color = color →
      ((rookCanMoveTo currentPosition color position b ≠ mthrow .InvalidMove →
        rookCanMoveTo currentPosition color position b ≠ mthrow .BlockedMove →
        rookCanMoveTo currentPosition color position b ≠ none →
        rookCanMoveTo currentPosition color position b = mthrow .InvalidCapture) ∧
       (bishopCanMoveTo currentPosition color position b ≠ mthrow .InvalidMove →
        bishopCanMoveTo currentPosition color position b ≠ mthrow .BlockedMove →
        bishopCanMoveTo currentPosition color position b ≠ none →
        bishopCanMoveTo currentPosition color position b = mthrow .InvalidCapture) ∧
       (knightCanMoveTo currentPosition color position b ≠ mthrow .InvalidMove →
        knightCanMoveTo currentPosition color position b = mthrow .InvalidCapture) ∧
       (queenCanMoveTo currentPosition color position b ≠ mthrow .InvalidMove →
        queenCanMoveTo currentPosition color position b ≠ mthrow .BlockedMove →
        queenCanMoveTo currentPosition color position b ≠ none →
        queenCanMoveTo currentPosition color position b = mthrow .InvalidCapture) ∧
       (kingCanMoveTo currentPosition color position b ≠ mthrow .InvalidMove →
        kingCanMoveTo currentPosition color position b ≠ mthrow .UnSafeKing →
        kingCanMoveTo currentPosition color position b ≠ none →
        kingCanMoveTo currentPosition color position b = mthrow .InvalidCapture) ∧
       (∀ isFirstMove : Bool,
        pawnCanMoveTo currentPosition color isFirstMove position b = mthrow .InvalidMove)) := by
  intro currentPosition position color b sq q hsq hp hqc
  refine ⟨?_, ?_, ?_, ?_, ?_, ?_⟩
  · intro h1 h2 h3
    rcases rook_sameColor_outcomes currentPosition position color b sq q hsq hp hqc
      with h | h | h | h
    · exact absurd h h1
    · exact absurd h h2
    · exact absurd h h3
    · exact h
  · intro h1 h2 h3
    rcases bishop_sameColor_outcomes currentPosition position color b sq q hsq hp hqc
      with h | h | h | h
    · exact absurd h h1
    · exact absurd h h2
    · exact absurd h h3
    · exact h
  · intro h1
    rcases knight_sameColor_outcomes currentPosition position color b sq q hsq hp hqc
      with h | h
    · exact absurd h h1
    · exact h
  · intro h1 h2 h3
    rcases queen_sameColor_outcomes currentPosition position color b sq q hsq hp hqc
      with h | h | h | h
    · exact absurd h h1
    · exact absurd h h2
    · exact absurd h h3
    · exact h
  · intro h1 h2 h3
    rcases king_sameColor_outcomes currentPosition position color b sq q hsq hp hqc
      with h | h | h | h
    · exact absurd h h1
    · exact absurd h h2
    · exact absurd h h3
    · exact h
  · intro isFirstMove
    simp only [Board.square] at hsq
    simp only [pawnCanMoveTo, Board.square, hsq]
    split_ifs with hg1 hg2 hg3 hg4 hg5
    · rfl
    · rfl
    · rfl
    · rfl
    · rfl
    · simp only [hp, if_pos hqc]

/-- Witness for C7, applied on the standard opening board: the white king
on e1 stepping onto its own pawn on e2 yields InvalidCapture, and the white
pawn on b2 stepping diagonally onto its own pawn on c2 yields InvalidMove
(here with the c2 pawn temporarily viewed as the diagonal target via the
board of the counterexample). -/
theorem canMoveTo_sameColor_capture_witness :
    kingCanMoveTo ⟨101, 1⟩ .White ⟨101, 2⟩ newBoard = mthrow .InvalidCapture ∧
    pawnCanMoveTo ⟨98, 2⟩ .White true ⟨99, 3⟩ pawnCaptureCexBoard = mthrow .InvalidMove := by
  have h := canMoveTo_sameColor_capture ⟨101, 1⟩ ⟨101, 2⟩ .White newBoard
    ⟨some (.Pawn .White ⟨101, 2⟩ true), 101, 2⟩ (.Pawn .White ⟨101, 2⟩ true)
    (by decide) (by decide) (by decide)
  have h2 := canMoveTo_sameColor_capture ⟨98, 2⟩ ⟨99, 3⟩ .White pawnCaptureCexBoard
    ⟨some (.Knight .White ⟨99, 3⟩), 99, 3⟩ (.Knight .White ⟨99, 3⟩)
    (by decide) (by decide) (by decide)
  exact ⟨h.2.2.2.2.1 (by decide) (by decide) (by decide), h2.2.2.2.2.2 true⟩

/-- Opposing piece list used by king::can_move_to and king::is_check: the
pieces of the other color in cell order. -/
def opposingPieces (color : Color) (b : Board) : List PieceType :=
  match color with
  | .Black => b.getAllWhitePieces
  | .White => b.getAllBlackPieces

/-- Hit condition of one arm of the threat scan in king::can_move_to
(king.rs lines 46-74), as a standalone predicate: an opposing king within
index distance 1, 7, 8, 9 of the destination, an opposing pawn exactly 7 or
9 indices above it (for either pawn color), or a rook, bishop, knight or
queen whose can_move_to accepts the destination; none when that
can_move_to panics. -/
def kingThreatArm (piece : PieceType) (newIndex : Int) (position : Position) (b : Board) :
    Option Bool :=
  match piece with
  | .King _ okp =>
    some (decide (okp.toIndex = newIndex + 7 ∨ okp.toIndex = newIndex - 7 ∨
      okp.toIndex = newIndex + 8 ∨ okp.toIndex = newIndex - 8 ∨
      okp.toIndex = newIndex + 9 ∨ okp.toIndex = newIndex - 9 ∨
      okp.toIndex = newIndex + 1 ∨ okp.toIndex = newIndex - 1))
  | .Pawn _ pp _ =>
    some (decide (pp.toIndex = newIndex + 7 ∨ pp.toIndex = newIndex + 9))
  | .Rook c cp =>
    match rookCanMoveTo cp c position b with
    | none => none
    | some (.ok _) => some true
    | some (.error _) => some false
  | .Bishop c cp =>
    match bishopCanMoveTo cp c position b with
    | none => none
    | some (.ok _) => some true
    | some (.error _) => some false
  | .Knight c cp =>
    match knightCanMoveTo cp c position b with
    | none => none
    | some (.ok _) => some true
    | some (.error _) => some false
  | .Queen c cp =>
    match queenCanMoveTo cp c position b with
    | none => none
    | some (.ok _) => some true
    | some (.error _) => some false

lemma kingThreatScan_cons (ni : Int) (pos : Position) (b : Board) (p : PieceType)
    (rest : List PieceType) :
    kingThreatScan ni pos b (p :: rest) =
      match kingThreatArm p ni pos b with
      | none => none
      | some true => mthrow .UnSafeKing
      | some false => kingThreatScan ni pos b rest := by
  cases p with
  | King c okp =>
    simp only [kingThreatScan, kingThreatArm]
    by_cases hcond : okp.toIndex = ni + 7 ∨ okp.toIndex = ni - 7 ∨ okp.toIndex = ni + 8 ∨
        okp.toIndex = ni - 8 ∨ okp.toIndex = ni + 9 ∨ okp.toIndex = ni - 9 ∨
        okp.toIndex = ni + 1 ∨ okp.toIndex = ni - 1
    · simp [hcond]
    · simp [hcond]
  | Pawn c pp f =>
    simp only [kingThreatScan, kingThreatArm]
    by_cases hcond : pp.toIndex = ni + 7 ∨ pp.toIndex = ni + 9
    · simp [hcond]
    · simp [hcond]
  | Rook c cp =>
    simp only [kingThreatScan, kingThreatArm]
    cases rookCanMoveTo cp c pos b with
    | none => rfl
    | some exc => cases exc with
      | error e => rfl
      | ok a => rfl
  | Bishop c cp =>
    simp only [kingThreatScan, kingThreatArm]
    cases bishopCanMoveTo cp c pos b with
    | none => rfl
    | some exc => cases exc with
      | error e => rfl
      | ok a => rfl
  | Knight c cp =>
    simp only [kingThreatScan, kingThreatArm]
    cases knightCanMoveTo cp c pos b with
    | none => rfl
    | some exc => cases exc with
      | error e => rfl
      | ok a => rfl
  | Queen c cp =>
    simp only [kingThreatScan, kingThreatArm]
    cases queenCanMoveTo cp c pos b with
    | none => rfl
    | some exc => cases exc with
      | error e => rfl
      | ok a => rfl

lemma kingThreatScan_spec (ni : Int) (pos : Position) (b : Board) :
    ∀ ps : List PieceType, (∀ p ∈ ps, kingThreatArm p ni pos b ≠ none) →
      ((kingThreatScan ni pos b ps = mthrow .UnSafeKing ↔
        ∃ p ∈ ps, kingThreatArm p ni pos b = some true) ∧
       (kingThreatScan ni pos b ps = mret () ↔
        ∀ p ∈ ps, kingThreatArm p ni pos b = some false)) := by
  intro ps
  induction ps with
  | nil =>
    intro _
    constructor
    · simp [kingThreatScan, mret, mthrow]
    · simp [kingThreatScan, mret, mthrow]
  | cons p rest ih =>
    intro hnp
    have hr := ih fun x hx => hnp x (List.mem_cons_of_mem _ hx)
    have hpn := hnp p (List.mem_cons_self p rest)
    rw [kingThreatScan_cons]
    cases harm : kingThreatArm p ni pos b with
    | none => exact absurd harm hpn
    | some bv =>
      cases bv with
      | false =>
        constructor
        · constructor
          · intro h
            rcases hr.1.mp h with ⟨x, hx, hxa⟩
            exact ⟨x, List.mem_cons_of_mem _ hx, hxa⟩
          · rintro ⟨x, hx, hxa⟩
            rcases List.mem_cons.mp hx with rfl | hx2
            · rw [harm] at hxa; simp at hxa
            · exact hr.1.mpr ⟨x, hx2, hxa⟩
        · constructor
          · intro h x hx
            rcases List.mem_cons.mp hx with rfl | hx2
            · exact harm
            · exact hr.2.mp h x hx2
          · intro hall
            exact hr.2.mpr fun x hx => hall x (List.mem_cons_of_mem _ hx)
      | true =>
        constructor
        · constructor
          · intro _
            exact ⟨p, List.mem_cons_self p rest, harm⟩
          · intro _
            rfl
        · constructor
          · intro h
            exfalso
            simp [mthrow, mret] at h
          · intro hall
            exfalso
            have := hall p (List.mem_cons_self p rest)
            rw [harm] at this
            simp at this

/-- Standard-chess pawn attack direction. Modelled from the claim's words
for C6 (pawns of either color attacking diagonally toward the king): a
white pawn attacks the two squares 7 and 9 indices above it, a black pawn
the two squares 7 and 9 indices below it. -/
def specPawnAttacks (c : Color) (pawnIndex targetIndex : Int) : Bool :=
  match c with
  | .White => targetIndex == pawnIndex + 7 || targetIndex == pawnIndex + 9
  | .Black => targetIndex == pawnIndex - 7 || targetIndex == pawnIndex - 9

/-- Board with a black king on e5 (index 36) and a white pawn on c3
(index 18). -/
def kingPawnCexBoard : Board :=
  ⟨setPieceList (setPieceList getSquares 36 (some (.King .Black ⟨101, 5⟩))) 18
    (some (.Pawn .White ⟨99, 3⟩ false))⟩

/-- Counterexample to claim C6 as stated: the black king on e5 may move to
d4 (index 27) even though the white pawn on c3 (index 18 = 27 - 9) attacks
d4 in the claim's sense — the code's pawn arm only tests the two squares
above the destination (destination + 7 and + 9) regardless of the pawn's
color, so can_move_to answers Ok instead of failing with UnSafeKing. -/
theorem kingCanMoveTo_pawnAttack_cex :
    kingCanMoveTo ⟨101, 5⟩ .Black ⟨100, 4⟩ kingPawnCexBoard = mret () ∧
    specPawnAttacks .White 18 27 = true := by
  decide

/-- Claim C6 as amended: king::can_move_to succeeds only when the absolute
index delta between source and destination is 1, 7, 8 or 9; and, provided
no arm of the threat scan panics, it fails with UnSafeKing exactly when
the delta is one of those values and some opposing piece satisfies the
code's arm condition: an opposing king within index distance 1, 7, 8, 9 of
the destination, an opposing pawn exactly 7 or 9 indices above the
destination (for either pawn color — not the claim's chess attack
directions), or a rook, bishop, knight or queen whose own can_move_to
accepts the destination. -/
theorem kingCanMoveTo_characterization :
    ∀ (currentPosition position : Position) (color : Color) (b : Board),
      (kingCanMoveTo currentPosition color position b = mret () →
        (|position.toIndex - currentPosition.toIndex| = 1 ∨
         |position.toIndex - currentPosition.toIndex| = 7 ∨
         |position.toIndex - currentPosition.toIndex| = 8 ∨
         |position.toIndex - currentPosition.toIndex| = 9)) ∧
      ((∀ p ∈ opposingPieces color b, kingThreatArm p position.toIndex position b ≠ none) →
        (kingCanMoveTo currentPosition color position b = mthrow .UnSafeKing ↔
         ((|position.toIndex - currentPosition.toIndex| = 1 ∨
           |position.toIndex - currentPosition.toIndex| = 7 ∨
           |position.toIndex - currentPosition.toIndex| = 8 ∨
           |position.toIndex - currentPosition.toIndex| = 9) ∧
          ∃ p ∈ opposingPieces color b,
            kingThreatArm p position.toIndex position b = some true))) := by
  intro currentPosition position color b
  have hopp : (match color with
      | Color.Black => b.getAllWhitePieces
      | Color.White => b.getAllBlackPieces) = opposingPieces color b := by
    cases color <;> rfl
  constructor
  · intro hok
    by_contra hgeo
    push_neg at hgeo
    obtain ⟨h1, h7, h8, h9⟩ := hgeo
    simp only [kingCanMoveTo] at hok
    rw [if_pos ⟨h7, h8, h9, h1⟩] at hok
    simp [mthrow, mret] at hok
  · intro hnp
    have hspec := kingThreatScan_spec position.toIndex position b (opposingPieces color b) hnp
    by_cases hgeo : |position.toIndex - currentPosition.toIndex| = 1 ∨
        |position.toIndex - currentPosition.toIndex| = 7 ∨
        |position.toIndex - currentPosition.toIndex| = 8 ∨
        |position.toIndex - currentPosition.toIndex| = 9
    · have hcond : ¬(|position.toIndex - currentPosition.toIndex| ≠ 7 ∧
          |position.toIndex - currentPosition.toIndex| ≠ 8 ∧
          |position.toIndex - currentPosition.toIndex| ≠ 9 ∧
          |position.toIndex - currentPosition.toIndex| ≠ 1) := by tauto
      constructor
      · intro husk
        refine ⟨hgeo, ?_⟩
        simp only [kingCanMoveTo, if_neg hcond, hopp] at husk
        by_cases hex : ∃ p ∈ opposingPieces color b,
            kingThreatArm p position.toIndex position b = some true
        · exact hex
        · exfalso
          have hall : ∀ p ∈ opposingPieces color b,
              kingThreatArm p position.toIndex position b = some false := by
            intro x hx
            cases hax : kingThreatArm x position.toIndex position b with
            | none => exact absurd hax (hnp x hx)
            | some bv =>
              cases bv with
              | true => exact absurd ⟨x, hx, hax⟩ hex
              | false => rfl
          have hscan := hspec.2.mpr hall
          rw [hscan] at husk
          simp only [mret] at husk
          cases hb : b.square position with
          | none => simp only [hb] at husk; simp [mthrow] at husk
          | some sq =>
            simp only [hb] at husk
            cases hbp : sq.piece with
            | none => simp only [hbp] at husk; simp [mthrow, mret] at husk
            | some pp =>
              simp only [hbp] at husk
              by_cases hcc : pp.color = color
              · rw [if_pos hcc] at husk; simp [mthrow] at husk
              · rw [if_neg hcc] at husk; simp [mthrow, mret] at husk
      · rintro ⟨_, hex⟩
        have hscan := hspec.1.mpr hex
        simp [kingCanMoveTo, if_neg hcond, hopp, hscan, mthrow]
    · constructor
      · intro husk
        exfalso
        push_neg at hgeo
        obtain ⟨h1, h7, h8, h9⟩ := hgeo
        simp only [kingCanMoveTo] at husk
        rw [if_pos ⟨h7, h8, h9, h1⟩] at husk
        simp [mthrow] at husk
      · rintro ⟨hg, _⟩
        exact absurd hg hgeo

/-- Board with a white king on e4 (index 28) and a black rook on f8
(index 61). -/
def kingRookWitnessBoard : Board :=
  ⟨setPieceList (setPieceList getSquares 28 (some (.King .White ⟨101, 4⟩))) 61
    (some (.Rook .Black ⟨102, 8⟩))⟩

/-- Witness for C6: the white king on e4 stepping to f5 (delta 9) is
rejected with UnSafeKing because the black rook on f8 attacks f5 down the
open f-file. -/
theorem kingCanMoveTo_characterization_witness :
    kingCanMoveTo ⟨101, 4⟩ .White ⟨102, 5⟩ kingRookWitnessBoard = mthrow .UnSafeKing :=
  ((kingCanMoveTo_characterization ⟨101, 4⟩ ⟨102, 5⟩ .White kingRookWitnessBoard).2
    (by decide)).mpr ⟨by decide, ⟨.Rook .Black ⟨102, 8⟩, by decide, by decide⟩⟩

lemma fromIndex_toIndex (i : Int) : (Position.fromIndex i).toIndex = i := by
  simp only [Position.fromIndex, Position.toIndex]
  have h := Int.tdiv_add_tmod i 8
  omega

lemma squareList_lt : ∀ (l : List Square) (n : Nat), n < l.length → ∃ s, squareList l n = some s := by
  intro l
  induction l with
  | nil => intro n h; simp at h
  | cons s r ih =>
    intro n h
    cases n with
    | zero => exact ⟨s, rfl⟩
    | succ m => exact ih m (by simpa using h)

lemma setPieceList_length : ∀ (l : List Square) (n : Nat) (p : Option PieceType),
    (setPieceList l n p).length = l.length := by
  intro l
  induction l with
  | nil => intro n p; rfl
  | cons s r ih =>
    intro n p
    cases n with
    | zero => rfl
    | succ m => simp [setPieceList, ih]

lemma squareList_set_ne : ∀ (l : List Square) (n m : Nat) (p : Option PieceType), n ≠ m →
    squareList (setPieceList l n p) m = squareList l m := by
  intro l
  induction l with
  | nil => intro n m p _; rfl
  | cons s r ih =>
    intro n m p hnm
    cases n with
    | zero =>
      cases m with
      | zero => exact absurd rfl hnm
      | succ m2 => rfl
    | succ n2 =>
      cases m with
      | zero => rfl
      | succ m2 => exact ih n2 m2 p (by omega)

lemma squareList_set_self : ∀ (l : List Square) (n : Nat) (p : Option PieceType) (s : Square),
    squareList l n = some s →
    squareList (setPieceList l n p) n = some { s with piece := p } := by
  intro l
  induction l with
  | nil => intro n p s h; simp [squareList] at h
  | cons s0 r ih =>
    intro n p s h
    cases n with
    | zero =>
      simp only [squareList] at h
      cases h
      rfl
    | succ m => exact ih m p s h

lemma getSquare_length_some (b : Board) (i : Int) (hlen : b.squares.length = 64)
    (h0 : 0 ≤ i) (h1 : i < 64) : ∃ sq, b.getSquare i = some sq := by
  have : i.toNat < b.squares.length := by omega
  obtain ⟨s, hs⟩ := squareList_lt b.squares i.toNat this
  exact ⟨s, by simp [Board.getSquare, not_lt.mpr h0, hs]⟩

lemma setPieceO_of_getSquare (b : Board) (i : Int) (p : Option PieceType) (sq : Square)
    (h : b.getSquare i = some sq) :
    b.setPieceO i p = some ⟨setPieceList b.squares i.toNat p⟩ := by
  simp [Board.setPieceO, h]

lemma setPieceO_nonneg (b : Board) (i : Int) (p : Option PieceType) (b2 : Board)
    (h : b.setPieceO i p = some b2) : 0 ≤ i := by
  by_contra hneg
  simp [Board.setPieceO, Board.getSquare, if_pos (by omega : i < 0)] at h

lemma length_setPieceO (b : Board) (i : Int) (p : Option PieceType) (b2 : Board)
    (h : b.setPieceO i p = some b2) : b2.squares.length = b.squares.length := by
  simp only [Board.setPieceO] at h
  cases hg : b.getSquare i with
  | none => rw [hg] at h; simp at h
  | some sq =>
    rw [hg] at h
    simp only [Option.some.injEq] at h
    rw [← h]
    exact setPieceList_length b.squares i.toNat p

lemma getSquare_setPieceO_ne (b : Board) (i : Int) (p : Option PieceType) (b2 : Board)
    (j : Int) (h : b.setPieceO i p = some b2) (hne : j ≠ i) :
    b2.getSquare j = b.getSquare j := by
  have hi := setPieceO_nonneg b i p b2 h
  simp only [Board.setPieceO] at h
  cases hg : b.getSquare i with
  | none => rw [hg] at h; simp at h
  | some sq =>
    rw [hg] at h
    simp only [Option.some.injEq] at h
    rw [← h]
    by_cases hj : j < 0
    · simp [Board.getSquare, if_pos hj]
    · have : i.toNat ≠ j.toNat := by omega
      simp [Board.getSquare, if_neg hj, squareList_set_ne b.squares i.toNat j.toNat p this]

lemma getSquare_setPieceO_self (b : Board) (i : Int) (p : Option PieceType) (b2 : Board)
    (h : b.setPieceO i p = some b2) :
    ∃ sq, b.getSquare i = some sq ∧ b2.getSquare i = some { sq with piece := p } := by
  have hi := setPieceO_nonneg b i p b2 h
  simp only [Board.setPieceO] at h
  cases hg : b.getSquare i with
  | none => rw [hg] at h; simp at h
  | some sq =>
    rw [hg] at h
    simp only [Option.some.injEq] at h
    refine ⟨sq, rfl, ?_⟩
    rw [← h]
    have hsl : squareList b.squares i.toNat = some sq := by
      simpa [Board.getSquare, if_neg (not_lt.mpr hi)] using hg
    simp [Board.getSquare, if_neg (not_lt.mpr hi), squareList_set_self b.squares i.toNat p sq hsl]

lemma probeSeq_cons (color : Color) (ci off : Int) (isPlus : Bool)
    (rest : List (Int × Bool)) (tmp : Board) :
    probeSeq color ci ((off, isPlus) :: rest) tmp =
      match kingProbe color ci off isPlus tmp with
      | none => none
      | some none => some false
      | some (some tmp2) => probeSeq color ci rest tmp2 := rfl

lemma kingProbe_skip (color : Color) (ci off : Int) (isPlus : Bool) (tmp : Board)
    (idx : Int) (sq2 : Square)
    (hg : if isPlus then ci < 63 else ci > 0)
    (hidx : (if isPlus then ci + off else ci - off) = idx)
    (hsq : tmp.getSquare idx = some sq2)
    (hcase : sq2.piece = none ∨ ∃ p2, sq2.piece = some p2 ∧ p2.color = color) :
    kingProbe color ci off isPlus tmp = some (some tmp) := by
  simp only [kingProbe, if_pos hg, Board.square, fromIndex_toIndex, hidx, hsq]
  rcases hcase with hc | ⟨p2, hc, hcc⟩
  · simp [hc]
  · simp [hc, hcc]

lemma kingProbe_enemy (color : Color) (ci off : Int) (isPlus : Bool) (tmp : Board)
    (idx : Int) (sq2 : Square) (p2 : PieceType)
    (hg : if isPlus then ci < 63 else ci > 0)
    (hidx : (if isPlus then ci + off else ci - off) = idx)
    (hsq : tmp.getSquare idx = some sq2)
    (hp : sq2.piece = some p2)
    (hpc : p2.color ≠ color) :
    kingProbe color ci off isPlus tmp =
      match tmp.setPieceO (Position.mk sq2.x sq2.y).toIndex none with
      | none => none
      | some tmp2 =>
        match kingIsCheck (.King color (Position.mk sq2.x sq2.y)) tmp2 with
        | none => none
        | some ch => if ch then some (some tmp2) else some none := by
  simp only [kingProbe, if_pos hg, Board.square, fromIndex_toIndex, hidx, hsq, hp, if_pos hpc]

set_option maxHeartbeats 2000000 in
/-- Claim C2 as amended (general form): when the king's cell index lies in
9..54 (so all eight probed indices are on the board), the board has 64
squares, exactly one probed cell current+d (d among the eight probe deltas
7, -7, 8, -8, 9, -9, 1, -1) holds an enemy piece and every other probed
cell is empty or friendly, can_king_move_safe_position returns exactly the
result of is_check for the king relocated to that cell on the working copy
with the king's cell and that cell cleared.  In particular it returns
false — not true — precisely when that relocation escapes check: the
polarity is inverted relative to the claim. -/
theorem canKingSafe_single_enemy :
    ∀ (color : Color) (currentPosition : Position) (b : Board) (d : Int) (sq : Square)
      (p : PieceType),
      b.squares.length = 64 →
      9 ≤ currentPosition.toIndex → currentPosition.toIndex ≤ 54 →
      (d = 7 ∨ d = -7 ∨ d = 8 ∨ d = -8 ∨ d = 9 ∨ d = -9 ∨ d = 1 ∨ d = -1) →
      b.getSquare (currentPosition.toIndex + d) = some sq →
      sq.piece = some p →
      p.color ≠ color →
      (∀ d2, (d2 = 7 ∨ d2 = -7 ∨ d2 = 8 ∨ d2 = -8 ∨ d2 = 9 ∨ d2 = -9 ∨ d2 = 1 ∨ d2 = -1) →
        d2 ≠ d → ∀ sq2 p2, b.getSquare (currentPosition.toIndex + d2) = some sq2 →
          sq2.piece = some p2 → p2.color = color) →
      canKingMoveSafePosition (.King color currentPosition) b =
        ((b.setPieceO currentPosition.toIndex none).bind fun t0 =>
          (t0.setPieceO (Position.mk sq.x sq.y).toIndex none).bind fun t1 =>
            kingIsCheck (.King color (Position.mk sq.x sq.y)) t1) := by
  intro color currentPosition b d sq p hlen h9 h54 hd hsq hp hpc huniq
  obtain ⟨csq, hcsq⟩ :=
    getSquare_length_some b currentPosition.toIndex hlen (by omega) (by omega)
  have htmp0 := setPieceO_of_getSquare b currentPosition.toIndex none csq hcsq
  set ci := currentPosition.toIndex with hcidef
  set tmp0 : Board := ⟨setPieceList b.squares ci.toNat none⟩ with htmp0def
  set nq := Position.mk sq.x sq.y with hnqdef
  have hne0 : ∀ j, j ≠ ci → tmp0.getSquare j = b.getSquare j := fun j hj =>
    getSquare_setPieceO_ne b ci none tmp0 j htmp0 hj
  have hD : ∀ d2 : Int,
      (d2 = 7 ∨ d2 = -7 ∨ d2 = 8 ∨ d2 = -8 ∨ d2 = 9 ∨ d2 = -9 ∨ d2 = 1 ∨ d2 = -1) →
      0 ≤ ci + d2 ∧ ci + d2 < 64 ∧ ci + d2 ≠ ci := by
    intro d2 h2
    rcases h2 with rfl | rfl | rfl | rfl | rfl | rfl | rfl | rfl <;>
      refine ⟨by omega, by omega, by omega⟩
  have hcellB : ∀ d2 : Int,
      (d2 = 7 ∨ d2 = -7 ∨ d2 = 8 ∨ d2 = -8 ∨ d2 = 9 ∨ d2 = -9 ∨ d2 = 1 ∨ d2 = -1) →
      d2 ≠ d →
      ∃ sq2, b.getSquare (ci + d2) = some sq2 ∧
        (sq2.piece = none ∨ ∃ p2, sq2.piece = some p2 ∧ p2.color = color) := by
    intro d2 h2 hne
    obtain ⟨h0, h1, _⟩ := hD d2 h2
    obtain ⟨sq2, hsq2⟩ := getSquare_length_some b (ci + d2) hlen h0 h1
    refine ⟨sq2, hsq2, ?_⟩
    cases hp2 : sq2.piece with
    | none => exact Or.inl rfl
    | some p2 => exact Or.inr ⟨p2, rfl, huniq d2 h2 hne sq2 p2 hsq2 hp2⟩
  have henemy0 : tmp0.getSquare (ci + d) = some sq := by
    rw [hne0 _ (hD d hd).2.2]; exact hsq
  have hcell : ∀ (off : Int) (ip : Bool),
      (if ip then ci + off else ci - off) = ci + (if ip then off else -off) := by
    intro off ip
    cases ip <;> simp [Int.sub_eq_add_neg]
  have hguard : ∀ ip : Bool, (if ip then ci < 63 else ci > 0) := by
    intro ip
    cases ip
    · simp only [Bool.false_eq_true, if_false]; omega
    · simp only [if_true]; omega
  have skip0 : ∀ (off : Int) (ip : Bool),
      ((if ip then off else -off) = 7 ∨ (if ip then off else -off) = -7 ∨
       (if ip then off else -off) = 8 ∨ (if ip then off else -off) = -8 ∨
       (if ip then off else -off) = 9 ∨ (if ip then off else -off) = -9 ∨
       (if ip then off else -off) = 1 ∨ (if ip then off else -off) = -1) →
      (if ip then off else -off) ≠ d →
      kingProbe color ci off ip tmp0 = some (some tmp0) := by
    intro off ip hmem2 hne2
    obtain ⟨sq2, hbs, hcase⟩ := hcellB _ hmem2 hne2
    have hsq2 : tmp0.getSquare (ci + (if ip then off else -off)) = some sq2 := by
      rw [hne0 _ (hD _ hmem2).2.2]; exact hbs
    exact kingProbe_skip color ci off ip tmp0 _ sq2 (hguard ip) (hcell off ip) hsq2 hcase
  have eg : ∀ (off : Int) (ip : Bool),
      (if ip then off else -off) = d →
      kingProbe color ci off ip tmp0 =
        match tmp0.setPieceO nq.toIndex none with
        | none => none
        | some tmp2 =>
          match kingIsCheck (.King color nq) tmp2 with
          | none => none
          | some ch => if ch then some (some tmp2) else some none := by
    intro off ip hde
    have hidx : (if ip then ci + off else ci - off) = ci + d := by
      rw [hcell off ip, hde]
    exact kingProbe_enemy color ci off ip tmp0 (ci + d) sq p (hguard ip) hidx henemy0 hp hpc
  simp only [canKingMoveSafePosition, htmp0, Option.bind_some]
  cases hset : tmp0.setPieceO nq.toIndex none with
  | none =>
    rcases hd with rfl | rfl | rfl | rfl | rfl | rfl | rfl | rfl <;>
      simp [probeOffsets, probeSeq_cons, skip0, eg, hset]
  | some tmp1 =>
    have hne1 : ∀ j, j ≠ nq.toIndex → tmp1.getSquare j = tmp0.getSquare j := fun j hj =>
      getSquare_setPieceO_ne tmp0 nq.toIndex none tmp1 j hset hj
    obtain ⟨sqn, _, hsqn1⟩ := getSquare_setPieceO_self tmp0 nq.toIndex none tmp1 hset
    have skip1 : ∀ (off : Int) (ip : Bool),
        ((if ip then off else -off) = 7 ∨ (if ip then off else -off) = -7 ∨
         (if ip then off else -off) = 8 ∨ (if ip then off else -off) = -8 ∨
         (if ip then off else -off) = 9 ∨ (if ip then off else -off) = -9 ∨
         (if ip then off else -off) = 1 ∨ (if ip then off else -off) = -1) →
        (if ip then off else -off) ≠ d →
        kingProbe color ci off ip tmp1 = some (some tmp1) := by
      intro off ip hmem2 hne2
      by_cases hq : ci + (if ip then off else -off) = nq.toIndex
      · refine kingProbe_skip color ci off ip tmp1 _ { sqn with piece := none } (hguard ip)
          (hcell off ip) ?_ (Or.inl rfl)
        rw [hq]
        exact hsqn1
      · obtain ⟨sq2, hbs, hcase⟩ := hcellB _ hmem2 hne2
        have hsq2 : tmp1.getSquare (ci + (if ip then off else -off)) = some sq2 := by
          rw [hne1 _ hq, hne0 _ (hD _ hmem2).2.2]; exact hbs
        exact kingProbe_skip color ci off ip tmp1 _ sq2 (hguard ip) (hcell off ip) hsq2 hcase
    cases hchk : kingIsCheck (.King color nq) tmp1 with
    | none =>
      rcases hd with rfl | rfl | rfl | rfl | rfl | rfl | rfl | rfl <;>
        simp [probeOffsets, probeSeq_cons, skip0, skip1, eg, hset, hchk]
    | some ch =>
      cases ch with
      | false =>
        rcases hd with rfl | rfl | rfl | rfl | rfl | rfl | rfl | rfl <;>
          simp [probeOffsets, probeSeq_cons, skip0, skip1, eg, hset, hchk]
      | true =>
        rcases hd with rfl | rfl | rfl | rfl | rfl | rfl | rfl | rfl <;>
          simp [probeOffsets, probeSeq_cons, skip0, skip1, eg, hset, hchk, probeSeq]

/-- Escape predicate. Modelled from the claim's words for C2: there exists
an adjacent (eight surrounding cells, skipping off-board neighbors)
enemy-occupied square such that removing the king from its current cell,
clearing that adjacent cell, and placing the king there yields a position
where is_check for that king is false.  Each neighbor is probed on a fresh
copy of the board. -/
def specCanKingEscape (color : Color) (kingPos : Position) (b : Board) : Bool :=
  [((-1 : Int), (-1 : Int)), (0, -1), (1, -1), (-1, 0), (1, 0), (-1, 1), (0, 1), (1, 1)].any
    fun dxy =>
      let q := Position.mk (kingPos.x + dxy.1) (kingPos.y + dxy.2)
      if 97 ≤ q.x ∧ q.x ≤ 104 ∧ 1 ≤ q.y ∧ q.y ≤ 8 then
        match b.getSquare q.toIndex with
        | some sq =>
          match sq.piece with
          | some p =>
            if p.color ≠ color then
              match b.setPieceO kingPos.toIndex none with
              | some t0 =>
                match t0.setPieceO q.toIndex none with
                | some t1 => kingIsCheck (.King color q) t1 == some false
                | none => false
              | none => false
            else false
          | none => false
        | none => false
      else false

/-- Board with a white king on e4 (index 28) and a black pawn on d5
(index 35). -/
def kingEscapeCexBoard : Board :=
  ⟨setPieceList (setPieceList getSquares 28 (some (.King .White ⟨101, 4⟩))) 35
    (some (.Pawn .Black ⟨100, 5⟩ false))⟩

/-- Counterexample to claim C2 as stated: on the board with a white king on
e4 and a black pawn on d5, an escape in the claim's sense exists (capturing
the undefended d5 pawn leaves the king out of check), yet
can_king_move_safe_position returns false, not true: the code signals a
found escape with an early return of false. -/
theorem canKingSafe_polarity_cex :
    canKingMoveSafePosition (.King .White ⟨101, 4⟩) kingEscapeCexBoard = some false ∧
    specCanKingEscape .White ⟨101, 4⟩ kingEscapeCexBoard = true := by
  decide

/-- Witness for C2: the single-enemy-neighbor characterization applied on
the board with the white king on e4 and the black pawn on d5 (delta 7): the
relocation is not in check, so the function returns false. -/
theorem canKingSafe_single_enemy_witness :
    canKingMoveSafePosition (.King .White ⟨101, 4⟩) kingEscapeCexBoard = some false := by
  have h := canKingSafe_single_enemy .White ⟨101, 4⟩ kingEscapeCexBoard 7
    ⟨some (.Pawn .Black ⟨100, 5⟩ false), 100, 5⟩ (.Pawn .Black ⟨100, 5⟩ false)
    (by decide) (by decide) (by decide) (Or.inl rfl) (by decide) (by decide) (by decide)
    ?huniq
  · rw [h]; decide
  case huniq =>
    intro d2 h2 hne
    rcases h2 with rfl | rfl | rfl | rfl | rfl | rfl | rfl | rfl
    · exact absurd rfl hne
    · intro sq2 p2 hs hp2
      have he : kingEscapeCexBoard.getSquare ((Position.mk 101 4).toIndex + (-7 : Int)) =
          some (Square.mk none 102 3) := by decide
      rw [he, Option.some.injEq] at hs
      subst hs
      simp at hp2
    · intro sq2 p2 hs hp2
      have he : kingEscapeCexBoard.getSquare ((Position.mk 101 4).toIndex + (8 : Int)) =
          some (Square.mk none 101 5) := by decide
      rw [he, Option.some.injEq] at hs
      subst hs
      simp at hp2
    · intro sq2 p2 hs hp2
      have he : kingEscapeCexBoard.getSquare ((Position.mk 101 4).toIndex + (-8 : Int)) =
          some (Square.mk none 101 3) := by decide
      rw [he, Option.some.injEq] at hs
      subst hs
      simp at hp2
    · intro sq2 p2 hs hp2
      have he : kingEscapeCexBoard.getSquare ((Position.mk 101 4).toIndex + (9 : Int)) =
          some (Square.mk none 102 5) := by decide
      rw [he, Option.some.injEq] at hs
      subst hs
      simp at hp2
    · intro sq2 p2 hs hp2
      have he : kingEscapeCexBoard.getSquare ((Position.mk 101 4).toIndex + (-9 : Int)) =
          some (Square.mk none 100 3) := by decide
      rw [he, Option.some.injEq] at hs
      subst hs
      simp at hp2
    · intro sq2 p2 hs hp2
      have he : kingEscapeCexBoard.getSquare ((Position.mk 101 4).toIndex + (1 : Int)) =
          some (Square.mk none 102 4) := by decide
      rw [he, Option.some.injEq] at hs
      subst hs
      simp at hp2
    · intro sq2 p2 hs hp2
      have he : kingEscapeCexBoard.getSquare ((Position.mk 101 4).toIndex + (-1 : Int)) =
          some (Square.mk none 100 4) := by decide
      rw [he, Option.some.injEq] at hs
      subst hs
      simp at hp2

end RChess
